import Mathlib

set_option maxRecDepth 8000

/-! Shallow embedding of the netpbmr codec (src/src/fields.rs, formats.rs,
pbm.rs, pgm.rs, pam.rs, lib.rs).  Bytes are modeled as `Nat` values in
[0, 255] and byte strings as `List Nat`.  Machine integers are `Nat` with
an explicit `% 2^32` where the source's u32 arithmetic can wrap; fallible
constructors return `Except`. -/

/-- `NetpbmError` from src/src/lib.rs, together with the `IOOperationFailed`
variant that src/src/pbm.rs's decoder constructs.  `ImageDim`/`BitDepth`
payloads are carried as their underlying numeric values. -/
inductive NetpbmError where
  | InvalidBitDepth (value : Nat)
  | InvalidImageDim (value : Nat)
  | InvalidChannelDepth (value : Nat)
  | MalformedInitArray (data_size : Nat) (width : Nat) (height : Nat)
  | OversizedSample (offset : Nat) (bit_depth : Nat)
  | OversizedTuple (length : Nat) (channel_depth : Nat)
  | IOOperationFailed (info : String)
  deriving DecidableEq

deriving instance DecidableEq for Except

/-- `EncodingType` from src/src/lib.rs. -/
inductive EncodingType where
  | Raw
  | Plain
  deriving DecidableEq

/-- `MagicNumber` from src/src/formats.rs. -/
inductive MagicNumber where
  | P1
  | P2
  | P3
  | P4
  | P5
  | P6
  | P7
  deriving DecidableEq

/-- `MagicNumber::to_bytes` from src/src/formats.rs: the two ASCII bytes. -/
def MagicNumber.to_bytes : MagicNumber → List Nat
  | .P1 => [80, 49]
  | .P2 => [80, 50]
  | .P3 => [80, 51]
  | .P4 => [80, 52]
  | .P5 => [80, 53]
  | .P6 => [80, 54]
  | .P7 => [80, 55]

/-- The `Display` impl for `MagicNumber` (renders the two-character code). -/
def MagicNumber.display : MagicNumber → String
  | .P1 => "P1"
  | .P2 => "P2"
  | .P3 => "P3"
  | .P4 => "P4"
  | .P5 => "P5"
  | .P6 => "P6"
  | .P7 => "P7"

/-- `NetpbmFormat` from src/src/formats.rs. -/
inductive NetpbmFormat where
  | PBMRaw
  | PBMPlain
  | PGMRaw
  | PGMPlain
  | PPMRaw
  | PPMPlain
  | PAM
  deriving DecidableEq

/-- `NetpbmFormat::magic` from src/src/formats.rs. -/
def NetpbmFormat.magic : NetpbmFormat → MagicNumber
  | .PBMPlain => .P1
  | .PGMPlain => .P2
  | .PPMPlain => .P3
  | .PBMRaw => .P4
  | .PGMRaw => .P5
  | .PPMRaw => .P6
  | .PAM => .P7

/-- `TypeInfo` from src/src/formats.rs: `Info(Vec<String>)` or `Empty`;
tag strings are modeled as byte lists. -/
inductive TypeInfo where
  | Info (tags : List (List Nat))
  | Empty
  deriving DecidableEq

/-- `ImageDim::new` from src/src/formats.rs (u32 domain): positive values
are accepted, the value is echoed in the error otherwise. -/
def ImageDim.new (value : Nat) : Except NetpbmError Nat :=
  if value > 0 then .ok value else .error (.InvalidImageDim value)

/-- `BitDepth::new` from src/src/formats.rs (u16 domain): only checks
`value > 0`; the u16 type bounds the domain at 65535. -/
def BitDepth.new (value : Nat) : Except NetpbmError Nat :=
  if value > 0 then .ok value else .error (.InvalidBitDepth value)

/-- `BitDepth::is_multi_byte` from src/src/formats.rs: `value > 255`. -/
def BitDepth.is_multi_byte (value : Nat) : Bool :=
  decide (value > 255)

/-- `ChannelDepth::new` from src/src/formats.rs. -/
def ChannelDepth.new (value : Nat) : Except NetpbmError Nat :=
  if value > 0 then .ok value else .error (.InvalidChannelDepth value)

/-- `BitDepth::new` from src/src/fields.rs (u32 domain): accepts exactly
`(MIN..=MAX).contains(&val)` with `MIN = 1`, `MAX = 65535`. -/
def Fields.BitDepth.new (val : Nat) : Except NetpbmError Nat :=
  if 1 ≤ val ∧ val ≤ 65535 then .ok val else .error (.InvalidBitDepth val)

/-- `Info` from src/src/formats.rs, with the validated field newtypes
carried as their underlying numeric values. -/
structure Info where
  format : NetpbmFormat
  encoding : EncodingType
  width : Nat
  height : Nat
  bit_depth : Nat
  channels : Nat
  deriving DecidableEq

/-- `Info::new_pbm` from src/src/formats.rs. -/
def Info.new_pbm (encoding : EncodingType) (width height : Nat) :
    Except NetpbmError Info := do
  let format := match encoding with
    | EncodingType.Raw => NetpbmFormat.PBMRaw
    | EncodingType.Plain => NetpbmFormat.PBMPlain
  let w ← ImageDim.new width
  let h ← ImageDim.new height
  pure { format := format, encoding := encoding, width := w, height := h,
         bit_depth := 1, channels := 1 }

/-- `Info::new_pgm` from src/src/formats.rs. -/
def Info.new_pgm (encoding : EncodingType) (width height bit_depth : Nat) :
    Except NetpbmError Info := do
  let format := match encoding with
    | EncodingType.Raw => NetpbmFormat.PGMRaw
    | EncodingType.Plain => NetpbmFormat.PGMPlain
  let w ← ImageDim.new width
  let h ← ImageDim.new height
  let bd ← BitDepth.new bit_depth
  pure { format := format, encoding := encoding, width := w, height := h,
         bit_depth := bd, channels := 1 }

/-- `Info::new_ppm` from src/src/formats.rs. -/
def Info.new_ppm (encoding : EncodingType) (width height bit_depth : Nat) :
    Except NetpbmError Info := do
  let format := match encoding with
    | EncodingType.Raw => NetpbmFormat.PPMRaw
    | EncodingType.Plain => NetpbmFormat.PPMPlain
  let w ← ImageDim.new width
  let h ← ImageDim.new height
  let bd ← BitDepth.new bit_depth
  pure { format := format, encoding := encoding, width := w, height := h,
         bit_depth := bd, channels := 3 }

/-- `Info::new_pam` from src/src/formats.rs. -/
def Info.new_pam (width height bit_depth channels : Nat) :
    Except NetpbmError Info := do
  let w ← ImageDim.new width
  let h ← ImageDim.new height
  let bd ← BitDepth.new bit_depth
  let c ← ChannelDepth.new channels
  pure { format := NetpbmFormat.PAM, encoding := EncodingType.Raw,
         width := w, height := h, bit_depth := bd, channels := c }

/-- 2^32: the modulus of the source's u32 arithmetic. -/
def U32MOD : Nat := 4294967296

/-- `Info::validate_sample_size` from src/src/formats.rs (identical code in
src/src/header.rs): `expected_samples` is the u32 product
`width * height * channels` (wrapping, hence the `% 2^32`), compared with
`samples_len as u32` (truncating, hence the `% 2^32`). -/
def Info.validate_sample_size (info : Info) (samples_len : Nat) :
    Except NetpbmError Unit :=
  let expected_samples := info.width * info.height * info.channels % U32MOD
  if expected_samples ≠ samples_len % U32MOD then
    .error (.MalformedInitArray samples_len info.width info.height)
  else
    .ok ()

/-- The sample scan loop shared by `Info::validate_u8_samples` and
`Info::validate_u16_samples` (src/src/formats.rs): returns the offset of
the first sample strictly exceeding the bit depth, if any. -/
def scanOversized (bit_depth : Nat) : Nat → List Nat → Option Nat
  | _, [] => none
  | offset, sample :: rest =>
    if sample > bit_depth then some offset
    else scanOversized bit_depth (offset + 1) rest

/-- `Info::validate_u8_samples` from src/src/formats.rs: size check first,
then the in-order scan (`sample as u16 > self.bit_depth.value()`). -/
def Info.validate_u8_samples (info : Info) (samples : List Nat) :
    Except NetpbmError Unit := do
  info.validate_sample_size samples.length
  match scanOversized info.bit_depth 0 samples with
  | some offset => Except.error (.OversizedSample offset info.bit_depth)
  | none => Except.ok ()

/-- `Info::validate_u16_samples` from src/src/formats.rs: same as the u8
variant with a u16 comparison (`sample > self.bit_depth.value()`). -/
def Info.validate_u16_samples (info : Info) (samples : List Nat) :
    Except NetpbmError Unit := do
  info.validate_sample_size samples.length
  match scanOversized info.bit_depth 0 samples with
  | some offset => Except.error (.OversizedSample offset info.bit_depth)
  | none => Except.ok ()

/-- Recursion worker for `decBytes`; the fuel argument only drives
structural termination and never runs out on `decBytes`'s call. -/
def decBytesAux : Nat → Nat → List Nat
  | 0, _ => []
  | fuel + 1, n => if n < 10 then [48 + n] else decBytesAux fuel (n / 10) ++ [48 + n % 10]

/-- Decimal ASCII rendering of an unsigned integer, as Rust's `Display`
for u32/u16 produces (used by every `format!` call in the encoders). -/
def decBytes (n : Nat) : List Nat :=
  decBytesAux (n + 1) n

/-- ASCII bytes of a string literal appearing in the source. -/
def strBytes (s : String) : List Nat :=
  s.data.map Char.toNat

/-- Recursion worker for `chunkList`; the fuel argument only drives
structural termination and never runs out on `chunkList`'s call. -/
def chunkListAux {α : Type} (n : Nat) : Nat → List α → List (List α)
  | 0, _ => []
  | _, [] => []
  | fuel + 1, x :: xs => (x :: xs.take n) :: chunkListAux n fuel (xs.drop n)

/-- `slice::chunks(n+1)`: splits a list into consecutive chunks of `n + 1`
elements, the last chunk possibly shorter. -/
def chunkList {α : Type} (n : Nat) (l : List α) : List (List α) :=
  chunkListAux n l.length l

/-- The byte-packing fold from `pbm::Encoder::write_raw`
(src/src/pbm.rs): `x.iter().enumerate().fold(0, |a, (i, b)| a | (b << (7 - i)))`
on u8 values (left shift of a u8 discards bits above bit 7, hence `% 256`). -/
def packByte (chunk : List Nat) : Nat :=
  chunk.enum.foldl (fun a p => a ||| ((p.2 <<< (7 - p.1)) % 256)) 0

/-- The PBM raw raster from `pbm::Encoder::write_raw` (src/src/pbm.rs):
`samples.chunks(8).map(...)` over the flat sample sequence. -/
def pbm_packed_raster (samples : List Nat) : List Nat :=
  (chunkList 7 samples).map packByte

namespace Pbm

/-- `pbm::Encoder::build_header` (src/src/pbm.rs):
`format!("{magic}\n{width} {height}\n")`. -/
def build_header (info : Info) : List Nat :=
  info.format.magic.to_bytes ++ [10] ++ decBytes info.width ++ [32] ++
    decBytes info.height ++ [10]

/-- `pbm::Encoder::build_lines` (src/src/pbm.rs): 35 samples per line,
space-separated, each line newline-terminated. -/
def build_lines (samples : List Nat) : List Nat :=
  ((chunkList 34 samples).map
    (fun chunk => List.intercalate [32] (chunk.map decBytes) ++ [10])).flatten

/-- `pbm::Encoder::write` (src/src/pbm.rs) as a sink transformer: the pair
is (call result, sink contents after the call). -/
def write (sink : List Nat) (encoding : EncodingType) (width height : Nat)
    (samples : List Nat) : Except NetpbmError Unit × List Nat :=
  match Info.new_pbm encoding width height with
  | .error e => (.error e, sink)
  | .ok info =>
    match info.validate_u8_samples samples with
    | .error e => (.error e, sink)
    | .ok _ =>
      match encoding with
      | .Raw => (.ok (), sink ++ build_header info ++ pbm_packed_raster samples)
      | .Plain => (.ok (), sink ++ build_header info ++ build_lines samples)

/-- `pbm::Decoder::read_raw` (src/src/pbm.rs): a stub that ignores both the
input bytes and the output buffer and returns `Info::new_pbm(Raw, 1, 1)`. -/
def read_raw (_img_buf : List Nat) (_buf : List Nat) : Except NetpbmError Info :=
  Info.new_pbm EncodingType.Raw 1 1

/-- `pbm::Decoder::read_plain` (src/src/pbm.rs): a stub that ignores both the
input bytes and the output buffer and returns `Info::new_pbm(Plain, 1, 1)`. -/
def read_plain (_img_buf : List Nat) (_buf : List Nat) : Except NetpbmError Info :=
  Info.new_pbm EncodingType.Plain 1 1

end Pbm

/-- Modelled from the spec: `MagicNumber::from_bytes`, referenced by
src/src/pbm.rs but absent from src/.  Per spec section 4.4 the two magic bytes
are matched against the closed MagicNumber set, anything else is `None`
(inverse of `MagicNumber::to_bytes`). -/
def MagicNumber.from_bytes (b : List Nat) : Option MagicNumber :=
  if b = [80, 49] then some .P1
  else if b = [80, 50] then some .P2
  else if b = [80, 51] then some .P3
  else if b = [80, 52] then some .P4
  else if b = [80, 53] then some .P5
  else if b = [80, 54] then some .P6
  else if b = [80, 55] then some .P7
  else none

namespace Pbm

/-- `pbm::Decoder::read` (src/src/pbm.rs): reads the whole input, matches
the first two bytes against P4/P1, dispatches to the (stub) raster readers.
The source indexes `img_buf[0..2]`, which panics on shorter input; that
out-of-domain case is modeled as an error. -/
def read (img_buf : List Nat) (buf : List Nat) : Except NetpbmError Info :=
  match img_buf with
  | b0 :: b1 :: _ =>
    match MagicNumber.from_bytes [b0, b1] with
    | some m =>
      if m = NetpbmFormat.PBMRaw.magic then read_raw img_buf buf
      else if m = NetpbmFormat.PBMPlain.magic then read_plain img_buf buf
      else .error (.IOOperationFailed ("Invalid magic number: " ++ m.display))
    | none => .error (.IOOperationFailed "Unexpected bytes at magic number position")
  | _ => .error (.IOOperationFailed "fewer than two bytes")

end Pbm

namespace Pgm

/-- `pgm::Encoder::build_header` (src/src/pgm.rs):
`format!("{magic}\n{width} {height} {bit_depth}\n")`. -/
def build_header (info : Info) : List Nat :=
  info.format.magic.to_bytes ++ [10] ++ decBytes info.width ++ [32] ++
    decBytes info.height ++ [32] ++ decBytes info.bit_depth ++ [10]

/-- `pgm::Encoder::build_lines_u8` / `build_lines_u16` (src/src/pgm.rs):
one decimal sample per newline-terminated line. -/
def build_lines (samples : List Nat) : List Nat :=
  (samples.map (fun s => decBytes s ++ [10])).flatten

end Pgm

/-- The raster of `pgm::Encoder::write_raw_u16` (src/src/pgm.rs): one
truncated low byte per sample (`(s & 0xFF) as u8`) when the bit depth is
not multi-byte, otherwise big-endian byte pairs (`s.to_be_bytes()`).
Samples are u16 values, so `s / 256 % 256` is the high byte. -/
def pgm_raster_raw_u16 (bit_depth : Nat) (samples : List Nat) : List Nat :=
  if BitDepth.is_multi_byte bit_depth = false then
    samples.map (fun s => s % 256)
  else
    (samples.map (fun s => [s / 256 % 256, s % 256])).flatten

namespace Pgm

/-- `pgm::Encoder::write` (src/src/pgm.rs) as a sink transformer. -/
def write (sink : List Nat) (encoding : EncodingType) (width height bit_depth : Nat)
    (samples : List Nat) : Except NetpbmError Unit × List Nat :=
  match Info.new_pgm encoding width height bit_depth with
  | .error e => (.error e, sink)
  | .ok info =>
    match info.validate_u8_samples samples with
    | .error e => (.error e, sink)
    | .ok _ =>
      match encoding with
      | .Raw => (.ok (), sink ++ build_header info ++ samples)
      | .Plain => (.ok (), sink ++ build_header info ++ build_lines samples)

/-- `pgm::Encoder::write_wide` (src/src/pgm.rs) as a sink transformer. -/
def write_wide (sink : List Nat) (encoding : EncodingType)
    (width height bit_depth : Nat) (samples : List Nat) :
    Except NetpbmError Unit × List Nat :=
  match Info.new_pgm encoding width height bit_depth with
  | .error e => (.error e, sink)
  | .ok info =>
    match info.validate_u16_samples samples with
    | .error e => (.error e, sink)
    | .ok _ =>
      match encoding with
      | .Raw => (.ok (), sink ++ build_header info ++ pgm_raster_raw_u16 info.bit_depth samples)
      | .Plain => (.ok (), sink ++ build_header info ++ build_lines samples)

end Pgm

/-- The raster of `pam::Encoder::write_wide` (src/src/pam.rs); the branch on
`is_multi_byte` is byte-for-byte the one in `pgm::Encoder::write_raw_u16`. -/
def pam_raster_raw_u16 (bit_depth : Nat) (samples : List Nat) : List Nat :=
  if BitDepth.is_multi_byte bit_depth = false then
    samples.map (fun s => s % 256)
  else
    (samples.map (fun s => [s / 256 % 256, s % 256])).flatten

namespace Pam

/-- One `TUPLTYPE <tag>\n` line from `pam::Encoder::build_header`. -/
def tupltype_line (tag : List Nat) : List Nat :=
  strBytes "TUPLTYPE " ++ tag ++ [10]

/-- `pam::Encoder::build_header` (src/src/pam.rs): the fixed keyword block,
then one TUPLTYPE line per tag (only in the `TypeInfo::Info` case, in
order, via the source's append loop), then `ENDHDR\n`. -/
def build_header (info : Info) (type_info : TypeInfo) : List Nat :=
  let header := info.format.magic.to_bytes ++ [10] ++
    strBytes "WIDTH " ++ decBytes info.width ++ [10] ++
    strBytes "HEIGHT " ++ decBytes info.height ++ [10] ++
    strBytes "DEPTH " ++ decBytes info.channels ++ [10] ++
    strBytes "MAXVAL " ++ decBytes info.bit_depth ++ [10]
  let header := match type_info with
    | TypeInfo.Info tags => tags.foldl (fun h t => h ++ tupltype_line t) header
    | TypeInfo.Empty => header
  header ++ strBytes "ENDHDR" ++ [10]

/-- `pam::Encoder::write` (src/src/pam.rs) as a sink transformer
(`bit_depth` is the u8 parameter, cast to u16 for `Info::new_pam`). -/
def write (sink : List Nat) (width height bit_depth channels : Nat)
    (type_info : TypeInfo) (samples : List Nat) :
    Except NetpbmError Unit × List Nat :=
  match Info.new_pam width height bit_depth channels with
  | .error e => (.error e, sink)
  | .ok info =>
    match info.validate_u8_samples samples with
    | .error e => (.error e, sink)
    | .ok _ => (.ok (), sink ++ build_header info type_info ++ samples)

/-- `pam::Encoder::write_wide` (src/src/pam.rs) as a sink transformer. -/
def write_wide (sink : List Nat) (width height bit_depth channels : Nat)
    (type_info : TypeInfo) (samples : List Nat) :
    Except NetpbmError Unit × List Nat :=
  match Info.new_pam width height bit_depth channels with
  | .error e => (.error e, sink)
  | .ok info =>
    match info.validate_u16_samples samples with
    | .error e => (.error e, sink)
    | .ok _ =>
      (.ok (), sink ++ build_header info type_info ++ pam_raster_raw_u16 info.bit_depth samples)

end Pam

/-- Specification-side definition (spec section 4.5, "pack 8 per byte,
most-significant bit first"): the byte value of one chunk of 0/1 samples,
sample `j` contributing `2^(7-j)`. -/
def msbPackSpec (bits : List Nat) : Nat :=
  (bits.enum.map (fun p => p.2 * 2 ^ (7 - p.1))).sum

/-- Specification-side definition (spec section 4.4): a header as a list of
lines, each terminated by a single newline byte. -/
def joinLines (ls : List (List Nat)) : List Nat :=
  (ls.map (fun l => l ++ [10])).flatten

/-! ### Helper lemmas -/

theorem decBytesAux_digits (fuel : Nat) :
    ∀ (n : Nat), ∀ b ∈ decBytesAux fuel n, 48 ≤ b ∧ b ≤ 57 := by
  induction fuel with
  | zero => intro n b hb; simp [decBytesAux] at hb
  | succ fuel ih =>
    intro n b hb
    rw [decBytesAux] at hb
    split at hb
    next hlt =>
      simp only [List.mem_singleton] at hb
      omega
    next hge =>
      rcases List.mem_append.1 hb with h | h
      · exact ih (n / 10) b h
      · simp only [List.mem_singleton] at h
        have : n % 10 < 10 := Nat.mod_lt _ (by omega)
        omega

theorem decBytes_digits (n : Nat) : ∀ b ∈ decBytes n, 48 ≤ b ∧ b ≤ 57 :=
  decBytesAux_digits (n + 1) n

theorem scanOversized_eq_none (bd : Nat) :
    ∀ (l : List Nat) (k : Nat), scanOversized bd k l = none ↔ ∀ s ∈ l, s ≤ bd := by
  intro l
  induction l with
  | nil => intro k; simp [scanOversized]
  | cons s rest ih =>
    intro k
    simp only [scanOversized, List.mem_cons]
    split
    next h => simp; omega
    next h =>
      rw [ih (k + 1)]
      constructor
      · intro hall t ht
        rcases ht with rfl | ht
        · omega
        · exact hall t ht
      · intro hall t ht
        exact hall t (Or.inr ht)

theorem scanOversized_first (bd : Nat) :
    ∀ (l : List Nat) (k i : Nat), i < l.length → bd < l.getD i 0 →
      (∀ j, j < i → l.getD j 0 ≤ bd) → scanOversized bd k l = some (k + i) := by
  intro l
  induction l with
  | nil => intro k i hi; simp at hi
  | cons s rest ih =>
    intro k i hi hover hbefore
    match i with
    | 0 =>
      simp only [List.getD_cons_zero] at hover
      simp [scanOversized, hover]
    | i + 1 =>
      have hs : s ≤ bd := by
        have := hbefore 0 (by omega)
        simpa using this
      simp only [List.getD_cons_succ] at hover
      rw [scanOversized]
      rw [if_neg (by omega)]
      have := ih (k + 1) i (by simpa using hi) hover
        (fun j hj => by simpa using hbefore (j + 1) (by omega))
      rw [this]
      congr 1
      omega

/-! ### Claim theorems -/

/-- Claim C3: encoding a PBM raw image with width 4, height 3 and samples
[1,0,1,0,1,0,1,0,1,0,1,0] writes exactly the header bytes `P4\n4 3\n`
followed by exactly the two raster bytes 0xAA 0xA0, and nothing else. -/
theorem pbm_raw_test_vector :
    Pbm.write [] EncodingType.Raw 4 3 [1, 0, 1, 0, 1, 0, 1, 0, 1, 0, 1, 0] =
      (Except.ok (), [0x50, 0x34, 0x0A, 0x34, 0x20, 0x33, 0x0A, 0xAA, 0xA0]) := by
  decide

/-- Claim C1 (code bug at the failing input): encoding the PBM raw image
with width 4, height 3 succeeds, but decoding the produced byte stream
returns the stub `Info::new_pbm(Raw, 1, 1)` — width = height = 1 — instead
of an Info equal to the original, and never reads any samples. -/
theorem pbm_decode_stub_breaks_roundtrip :
    (Pbm.write [] EncodingType.Raw 4 3 [1, 0, 1, 0, 1, 0, 1, 0, 1, 0, 1, 0]).1 =
      Except.ok () ∧
    Pbm.read (Pbm.write [] EncodingType.Raw 4 3 [1, 0, 1, 0, 1, 0, 1, 0, 1, 0, 1, 0]).2 [] =
      Except.ok { format := NetpbmFormat.PBMRaw, encoding := EncodingType.Raw,
                  width := 1, height := 1, bit_depth := 1, channels := 1 } ∧
    Pbm.read (Pbm.write [] EncodingType.Raw 4 3 [1, 0, 1, 0, 1, 0, 1, 0, 1, 0, 1, 0]).2 [] ≠
      Info.new_pbm EncodingType.Raw 4 3 := by
  decide

/-- Claim C2 is false on the code: for width 4 (not a multiple of 8) and
height 3, the claim predicts a raster of height * ceil(width/8) = 3 bytes
with byte-aligned rows, but the encoder packs the flat 12-sample sequence
into 2 bytes, the first of which mixes bits of rows 0 and 1. -/
theorem pbm_raw_row_padding_counterexample :
    (pbm_packed_raster [1, 0, 1, 0, 1, 0, 1, 0, 1, 0, 1, 0]).length ≠ 3 * ((4 + 7) / 8) := by
  decide

/-- Claim C7 is false on the code: for a fixed PAM image, the header
emitted for `TypeInfo::Info(vec![])` (present but empty) is byte-for-byte
the header emitted for `TypeInfo::Empty` (absent) — the loop over an empty
tag list emits no TUPLTYPE lines. -/
theorem pam_typeinfo_empty_counterexample :
    Pam.build_header
        { format := NetpbmFormat.PAM, encoding := EncodingType.Raw,
          width := 3, height := 2, bit_depth := 255, channels := 4 }
        (TypeInfo.Info []) =
      Pam.build_header
        { format := NetpbmFormat.PAM, encoding := EncodingType.Raw,
          width := 3, height := 2, bit_depth := 255, channels := 4 }
        TypeInfo.Empty := by
  decide

/-- Claim C7 (amended): for every PAM image the header bytes for
`TypeInfo::Info([])` and for `TypeInfo::Empty` are identical — absence and
present-but-empty are indistinguishable in header emission. -/
theorem pam_typeinfo_empty_header_eq (info : Info) :
    Pam.build_header info (TypeInfo.Info []) = Pam.build_header info TypeInfo.Empty := rfl

/-- Claim C8: `BitDepth::new` in src/src/fields.rs (u32 domain) succeeds
exactly on [1, 65535], returning the input value, and fails with
`InvalidBitDepth` carrying the rejected value on 0 and on every value
above 65535; the src/src/formats.rs variant (u16 domain) succeeds on its
whole domain except 0. -/
theorem bit_depth_new_range :
    (∀ v : Nat, v < 4294967296 →
      ((1 ≤ v ∧ v ≤ 65535) → Fields.BitDepth.new v = Except.ok v) ∧
      ((v = 0 ∨ 65535 < v) →
        Fields.BitDepth.new v = Except.error (NetpbmError.InvalidBitDepth v))) ∧
    (∀ v : Nat, v < 65536 →
      (1 ≤ v → BitDepth.new v = Except.ok v) ∧
      (v = 0 → BitDepth.new v = Except.error (NetpbmError.InvalidBitDepth v))) := by
  constructor
  · intro v _
    constructor
    · intro hv
      rw [Fields.BitDepth.new, if_pos hv]
    · intro hv
      rw [Fields.BitDepth.new, if_neg (by omega)]
  · intro v _
    constructor
    · intro hv
      rw [BitDepth.new, if_pos (by omega)]
    · intro hv
      rw [BitDepth.new, if_neg (by omega)]

theorem bit_depth_new_range_witness :
    Fields.BitDepth.new 65535 = Except.ok 65535 ∧
    Fields.BitDepth.new 65536 = Except.error (NetpbmError.InvalidBitDepth 65536) ∧
    Fields.BitDepth.new 0 = Except.error (NetpbmError.InvalidBitDepth 0) ∧
    BitDepth.new 65535 = Except.ok 65535 :=
  ⟨(bit_depth_new_range.1 65535 (by omega)).1 (by omega),
   (bit_depth_new_range.1 65536 (by omega)).2 (Or.inr (by omega)),
   (bit_depth_new_range.1 0 (by omega)).2 (Or.inl rfl),
   (bit_depth_new_range.2 65535 (by omega)).1 (by omega)⟩

/-- Claim C10: the sample-size check works modulo 2^32 — it accepts a
buffer iff the length and the product `width*height*channels` agree after
truncation to u32; concretely, an Info built by `Info::new_pam` with
width = height = 65536 (product 2^32, overflowing u32 to 0) accepts an
empty buffer even though its true length 0 differs from the product. -/
theorem validate_sample_size_mod32 :
    (∀ (info : Info) (len : Nat),
      info.validate_sample_size len = Except.ok () ↔
        info.width * info.height * info.channels % U32MOD = len % U32MOD) ∧
    (Info.new_pam 65536 65536 255 1).map (fun i => i.validate_sample_size 0) =
      Except.ok (Except.ok ()) ∧
    65536 * 65536 * 1 ≠ 0 ∧ 4294967295 < 65536 * 65536 * 1 := by
  refine ⟨?_, by decide, by decide, by decide⟩
  intro info len
  rw [Info.validate_sample_size]
  split
  next h => simp only [reduceCtorEq, false_iff]; exact fun hc => h hc
  next h => simp only [true_iff]; omega

theorem pairs_flatten_length (l : List Nat) :
    ((l.map (fun s => [s / 256 % 256, s % 256])).flatten).length = 2 * l.length := by
  induction l with
  | nil => simp
  | cons s t ih => simp only [List.map_cons, List.flatten_cons, List.length_append, ih,
      List.length_cons]; simp; omega

theorem pairs_flatten_getD :
    ∀ (l : List Nat) (i : Nat), i < l.length →
      ((l.map (fun s => [s / 256 % 256, s % 256])).flatten).getD (2 * i) 0 =
        l.getD i 0 / 256 % 256 ∧
      ((l.map (fun s => [s / 256 % 256, s % 256])).flatten).getD (2 * i + 1) 0 =
        l.getD i 0 % 256 := by
  intro l
  induction l with
  | nil => intro i hi; simp at hi
  | cons s t ih =>
    intro i hi
    match i with
    | 0 => simp
    | i + 1 =>
      have h2 : 2 * (i + 1) = 2 * i + 1 + 1 := by omega
      simp only [List.map_cons, List.flatten_cons, List.cons_append, List.nil_append, h2,
        List.getD_cons_succ, List.getD_cons_zero]
      exact ih i (by simpa using hi)

/-- Claim C4: for every raw 16-bit-sample raster (the PGM path of
`write_raw_u16`, byte-identical in PAM's `write_wide`): bit depths up to
255 emit exactly one byte per sample — the sample's low byte, whatever the
high byte holds — and bit depths from 256 up emit exactly two bytes per
sample in big-endian order (the two bytes reassemble to the u16 value);
the boundary between the regimes sits exactly between 255 and 256. -/
theorem raw_u16_sample_serialization (bit_depth : Nat) (samples : List Nat) :
    (bit_depth ≤ 255 →
      pgm_raster_raw_u16 bit_depth samples = samples.map (fun s => s % 256) ∧
      (pgm_raster_raw_u16 bit_depth samples).length = samples.length) ∧
    (256 ≤ bit_depth →
      pgm_raster_raw_u16 bit_depth samples =
        (samples.map (fun s => [s / 256 % 256, s % 256])).flatten ∧
      (pgm_raster_raw_u16 bit_depth samples).length = 2 * samples.length ∧
      (∀ i, i < samples.length →
        256 * ((pgm_raster_raw_u16 bit_depth samples).getD (2 * i) 0) +
            (pgm_raster_raw_u16 bit_depth samples).getD (2 * i + 1) 0 =
          samples.getD i 0 % 65536)) ∧
    pam_raster_raw_u16 bit_depth samples = pgm_raster_raw_u16 bit_depth samples := by
  refine ⟨?_, ?_, rfl⟩
  · intro h
    have hne : BitDepth.is_multi_byte bit_depth = false := by
      simp [BitDepth.is_multi_byte]; omega
    rw [pgm_raster_raw_u16, if_pos hne]
    exact ⟨rfl, by simp⟩
  · intro h
    have hne : ¬ BitDepth.is_multi_byte bit_depth = false := by
      simp [BitDepth.is_multi_byte]; omega
    rw [pgm_raster_raw_u16, if_neg hne]
    refine ⟨rfl, pairs_flatten_length samples, ?_⟩
    intro i hi
    obtain ⟨h1, h2⟩ := pairs_flatten_getD samples i hi
    rw [h1, h2]
    omega

theorem raw_u16_sample_serialization_witness :
    pgm_raster_raw_u16 255 [4660] = [52] ∧ pgm_raster_raw_u16 256 [4660] = [18, 52] :=
  ⟨(((raw_u16_sample_serialization 255 [4660]).1 (by omega)).1).trans (by decide),
   (((raw_u16_sample_serialization 256 [4660]).2.1 (by omega)).1).trans (by decide)⟩

/-- Claim C5: sample validation checks the buffer size first — on mismatch
it fails with `MalformedInitArray` carrying the actual length and the
width/height — and only on a size match scans samples in increasing order,
failing with `OversizedSample` at the flat offset of the first element
strictly exceeding the bit depth; a correctly sized buffer whose samples
are all within the bit depth is accepted.  The u8 and u16 variants share
the contract.  (The size hypotheses keep the u32 comparison exact; the
wrap-around regime is claim C10's subject.) -/
theorem validate_samples_contract (info : Info) (samples : List Nat)
    (hprod : info.width * info.height * info.channels < U32MOD)
    (hlen : samples.length < U32MOD) :
    (samples.length ≠ info.width * info.height * info.channels →
      info.validate_u8_samples samples =
        Except.error (NetpbmError.MalformedInitArray samples.length info.width info.height) ∧
      info.validate_u16_samples samples =
        Except.error (NetpbmError.MalformedInitArray samples.length info.width info.height)) ∧
    (samples.length = info.width * info.height * info.channels →
      ((∀ s ∈ samples, s ≤ info.bit_depth) →
        info.validate_u8_samples samples = Except.ok () ∧
        info.validate_u16_samples samples = Except.ok ()) ∧
      (∀ i, i < samples.length → info.bit_depth < samples.getD i 0 →
        (∀ j, j < i → samples.getD j 0 ≤ info.bit_depth) →
        info.validate_u8_samples samples =
          Except.error (NetpbmError.OversizedSample i info.bit_depth) ∧
        info.validate_u16_samples samples =
          Except.error (NetpbmError.OversizedSample i info.bit_depth))) := by
  constructor
  · intro hne
    have hsz : info.validate_sample_size samples.length =
        Except.error (NetpbmError.MalformedInitArray samples.length info.width info.height) := by
      rw [Info.validate_sample_size]
      rw [if_pos]
      simp only [Nat.mod_eq_of_lt hprod, Nat.mod_eq_of_lt hlen]
      exact fun hc => hne hc.symm
    constructor <;>
      simp [Info.validate_u8_samples, Info.validate_u16_samples, hsz, Bind.bind, Except.bind]
  · intro hsizeEq
    have hsz : info.validate_sample_size samples.length = Except.ok () := by
      rw [Info.validate_sample_size]
      rw [if_neg]
      simp only [Nat.mod_eq_of_lt hprod, Nat.mod_eq_of_lt hlen, hsizeEq, ne_eq,
        not_true_eq_false, not_false_eq_true]
    constructor
    · intro hall
      have hscan : scanOversized info.bit_depth 0 samples = none :=
        (scanOversized_eq_none _ samples 0).2 hall
      constructor <;>
        simp [Info.validate_u8_samples, Info.validate_u16_samples, hsz, hscan,
          Bind.bind, Except.bind]
    · intro i hi hover hbefore
      have hscan : scanOversized info.bit_depth 0 samples = some i := by
        have := scanOversized_first info.bit_depth samples 0 i hi hover hbefore
        simpa using this
      constructor <;>
        simp [Info.validate_u8_samples, Info.validate_u16_samples, hsz, hscan,
          Bind.bind, Except.bind]

theorem validate_samples_contract_witness :
    Info.validate_u8_samples
        { format := NetpbmFormat.PBMRaw, encoding := EncodingType.Raw,
          width := 3, height := 4, bit_depth := 1, channels := 1 }
        [1, 0, 1, 0, 2, 0, 0, 1, 0, 1, 0, 1] =
      Except.error (NetpbmError.OversizedSample 4 1) ∧
    Info.validate_u16_samples
        { format := NetpbmFormat.PBMRaw, encoding := EncodingType.Raw,
          width := 3, height := 4, bit_depth := 1, channels := 1 }
        [1, 0, 1] =
      Except.error (NetpbmError.MalformedInitArray 3 3 4) := by
  constructor
  · exact (((validate_samples_contract
        { format := NetpbmFormat.PBMRaw, encoding := EncodingType.Raw,
          width := 3, height := 4, bit_depth := 1, channels := 1 }
        [1, 0, 1, 0, 2, 0, 0, 1, 0, 1, 0, 1] (by decide) (by decide)).2 (by decide)).2
      4 (by decide) (by decide)
      (fun j hj => by interval_cases j <;> decide)).1
  · exact ((validate_samples_contract
        { format := NetpbmFormat.PBMRaw, encoding := EncodingType.Raw,
          width := 3, height := 4, bit_depth := 1, channels := 1 }
        [1, 0, 1] (by decide) (by decide)).1 (by decide)).2

/-- Claim C9: for every encode call of the PBM, PGM (narrow and wide) and
PAM (narrow and wide) encoders, an error from Info construction or sample
validation leaves the sink exactly as it was: validation completes before
any byte is appended. -/
theorem encode_no_partial_write (sink : List Nat) (e : NetpbmError) :
    (∀ enc w h s, (Pbm.write sink enc w h s).1 = Except.error e →
      (Pbm.write sink enc w h s).2 = sink) ∧
    (∀ enc w h bd s, (Pgm.write sink enc w h bd s).1 = Except.error e →
      (Pgm.write sink enc w h bd s).2 = sink) ∧
    (∀ enc w h bd s, (Pgm.write_wide sink enc w h bd s).1 = Except.error e →
      (Pgm.write_wide sink enc w h bd s).2 = sink) ∧
    (∀ w h bd c ti s, (Pam.write sink w h bd c ti s).1 = Except.error e →
      (Pam.write sink w h bd c ti s).2 = sink) ∧
    (∀ w h bd c ti s, (Pam.write_wide sink w h bd c ti s).1 = Except.error e →
      (Pam.write_wide sink w h bd c ti s).2 = sink) := by
  refine ⟨?_, ?_, ?_, ?_, ?_⟩
  · intro enc w h s hE
    unfold Pbm.write at hE ⊢
    cases hInfo : Info.new_pbm enc w h with
    | error e1 => rfl
    | ok info =>
      rw [hInfo] at hE
      dsimp only at hE ⊢
      cases hV : info.validate_u8_samples s with
      | error e2 => rfl
      | ok u =>
        rw [hV] at hE
        cases enc <;> simp at hE
  · intro enc w h bd s hE
    unfold Pgm.write at hE ⊢
    cases hInfo : Info.new_pgm enc w h bd with
    | error e1 => rfl
    | ok info =>
      rw [hInfo] at hE
      dsimp only at hE ⊢
      cases hV : info.validate_u8_samples s with
      | error e2 => rfl
      | ok u =>
        rw [hV] at hE
        cases enc <;> simp at hE
  · intro enc w h bd s hE
    unfold Pgm.write_wide at hE ⊢
    cases hInfo : Info.new_pgm enc w h bd with
    | error e1 => rfl
    | ok info =>
      rw [hInfo] at hE
      dsimp only at hE ⊢
      cases hV : info.validate_u16_samples s with
      | error e2 => rfl
      | ok u =>
        rw [hV] at hE
        cases enc <;> simp at hE
  · intro w h bd c ti s hE
    unfold Pam.write at hE ⊢
    cases hInfo : Info.new_pam w h bd c with
    | error e1 => rfl
    | ok info =>
      rw [hInfo] at hE
      dsimp only at hE ⊢
      cases hV : info.validate_u8_samples s with
      | error e2 => rfl
      | ok u =>
        rw [hV] at hE
        simp at hE
  · intro w h bd c ti s hE
    unfold Pam.write_wide at hE ⊢
    cases hInfo : Info.new_pam w h bd c with
    | error e1 => rfl
    | ok info =>
      rw [hInfo] at hE
      dsimp only at hE ⊢
      cases hV : info.validate_u16_samples s with
      | error e2 => rfl
      | ok u =>
        rw [hV] at hE
        simp at hE

theorem encode_no_partial_write_witness :
    (Pbm.write [7] EncodingType.Raw 0 3 []).2 = [7] ∧
    (Pam.write_wide [9] 2 2 0 3 TypeInfo.Empty []).2 = [9] :=
  ⟨(encode_no_partial_write [7] (NetpbmError.InvalidImageDim 0)).1
      EncodingType.Raw 0 3 [] (by decide),
   (encode_no_partial_write [9] (NetpbmError.InvalidBitDepth 0)).2.2.2.2
      2 2 0 3 TypeInfo.Empty [] (by decide)⟩

theorem foldl_tupltype (tags : List (List Nat)) :
    ∀ init : List Nat,
      tags.foldl (fun h t => h ++ Pam.tupltype_line t) init =
        init ++ (tags.map Pam.tupltype_line).flatten := by
  induction tags with
  | nil => intro init; simp
  | cons t ts ih =>
    intro init
    simp only [List.foldl_cons, List.map_cons, List.flatten_cons]
    rw [ih]
    simp [List.append_assoc]

theorem not_mem_joinLines {b : Nat} (hnl : b ≠ 10) :
    ∀ ls : List (List Nat), (∀ l ∈ ls, b ∉ l) → b ∉ joinLines ls := by
  intro ls
  induction ls with
  | nil => intro _; simp [joinLines]
  | cons l rest ih =>
    intro hb
    simp only [joinLines, List.map_cons, List.flatten_cons, List.mem_append, not_or]
    refine ⟨⟨hb l (by simp), by simpa using hnl⟩, ?_⟩
    exact ih (fun t ht => hb t (by simp [ht]))

/-- Claim C6: every PAM header is exactly the line `P7`, then
`WIDTH <w>`, `HEIGHT <h>`, `DEPTH <channels>`, `MAXVAL <maxval>` in that
fixed order, then one `TUPLTYPE <tag>` line per tag in the caller's order
(none at all for `TypeInfo::Empty`), then a final `ENDHDR` line; every line
ends in the single byte `\n`, no carriage return occurs (given CR-free
tags), and the numbers are decimal ASCII digits. -/
theorem pam_header_layout (info : Info) (tags : List (List Nat))
    (hfmt : info.format = NetpbmFormat.PAM)
    (hcr : ∀ t ∈ tags, (13 : Nat) ∉ t) :
    Pam.build_header info (TypeInfo.Info tags) =
      joinLines ([strBytes "P7",
                  strBytes "WIDTH " ++ decBytes info.width,
                  strBytes "HEIGHT " ++ decBytes info.height,
                  strBytes "DEPTH " ++ decBytes info.channels,
                  strBytes "MAXVAL " ++ decBytes info.bit_depth] ++
                 tags.map (fun t => strBytes "TUPLTYPE " ++ t) ++
                 [strBytes "ENDHDR"]) ∧
    Pam.build_header info TypeInfo.Empty =
      joinLines [strBytes "P7",
                 strBytes "WIDTH " ++ decBytes info.width,
                 strBytes "HEIGHT " ++ decBytes info.height,
                 strBytes "DEPTH " ++ decBytes info.channels,
                 strBytes "MAXVAL " ++ decBytes info.bit_depth,
                 strBytes "ENDHDR"] ∧
    (13 : Nat) ∉ Pam.build_header info (TypeInfo.Info tags) ∧
    (∀ b ∈ decBytes info.width ++ decBytes info.height ++
        decBytes info.channels ++ decBytes info.bit_depth, 48 ≤ b ∧ b ≤ 57) := by
  have hmagic : NetpbmFormat.PAM.magic.to_bytes = strBytes "P7" := by decide
  have hInfoCase :
      Pam.build_header info (TypeInfo.Info tags) =
        joinLines ([strBytes "P7",
                    strBytes "WIDTH " ++ decBytes info.width,
                    strBytes "HEIGHT " ++ decBytes info.height,
                    strBytes "DEPTH " ++ decBytes info.channels,
                    strBytes "MAXVAL " ++ decBytes info.bit_depth] ++
                   tags.map (fun t => strBytes "TUPLTYPE " ++ t) ++
                   [strBytes "ENDHDR"]) := by
    rw [Pam.build_header]
    rw [hfmt, hmagic, foldl_tupltype]
    simp only [joinLines, List.map_append, List.flatten_append, List.map_cons, List.map_nil,
      List.flatten_cons, List.flatten_nil, List.map_map]
    simp only [List.append_assoc, List.nil_append, List.append_nil]
    have htt : ∀ t ∈ tags,
        Pam.tupltype_line t =
          ((fun l => l ++ [10]) ∘ fun t => strBytes "TUPLTYPE " ++ t) t := by
      intro t _
      simp [Pam.tupltype_line, Function.comp, List.append_assoc]
    rw [List.map_congr_left htt]
  refine ⟨hInfoCase, ?_, ?_, ?_⟩
  · rw [Pam.build_header]
    rw [hfmt, hmagic]
    simp only [joinLines, List.map_cons, List.map_nil, List.flatten_cons, List.flatten_nil]
    simp [List.append_assoc]
  · rw [hInfoCase]
    apply not_mem_joinLines (by omega)
    intro l hl
    have hW : (13 : Nat) ∉ strBytes "WIDTH " := by decide
    have hH : (13 : Nat) ∉ strBytes "HEIGHT " := by decide
    have hD : (13 : Nat) ∉ strBytes "DEPTH " := by decide
    have hM : (13 : Nat) ∉ strBytes "MAXVAL " := by decide
    have hT : (13 : Nat) ∉ strBytes "TUPLTYPE " := by decide
    have hdec : ∀ n : Nat, (13 : Nat) ∉ decBytes n := by
      intro n h13
      have := decBytes_digits n 13 h13
      omega
    rcases List.mem_append.1 hl with hl' | hE
    · rcases List.mem_append.1 hl' with hfix | htup
      · simp only [List.mem_cons, List.not_mem_nil, or_false] at hfix
        rcases hfix with rfl | rfl | rfl | rfl | rfl
        · decide
        all_goals
          intro h13
          rcases List.mem_append.1 h13 with h | h
          · first
            | exact hW h
            | exact hH h
            | exact hD h
            | exact hM h
          · exact hdec _ h
      · obtain ⟨t, ht, rfl⟩ := List.mem_map.1 htup
        intro h13
        rcases List.mem_append.1 h13 with h | h
        · exact hT h
        · exact hcr t ht h
    · simp only [List.mem_singleton] at hE
      subst hE
      decide
  · intro b hb
    rcases List.mem_append.1 hb with hb | h4
    · rcases List.mem_append.1 hb with hb | h3
      · rcases List.mem_append.1 hb with h1 | h2
        · exact decBytes_digits _ b h1
        · exact decBytes_digits _ b h2
      · exact decBytes_digits _ b h3
    · exact decBytes_digits _ b h4

theorem pam_header_layout_witness :
    Pam.build_header
        { format := NetpbmFormat.PAM, encoding := EncodingType.Raw,
          width := 3, height := 2, bit_depth := 2048, channels := 4 }
        (TypeInfo.Info [strBytes "RGBA64"]) =
      joinLines ([strBytes "P7",
                  strBytes "WIDTH " ++ decBytes 3,
                  strBytes "HEIGHT " ++ decBytes 2,
                  strBytes "DEPTH " ++ decBytes 4,
                  strBytes "MAXVAL " ++ decBytes 2048] ++
                 [strBytes "RGBA64"].map (fun t => strBytes "TUPLTYPE " ++ t) ++
                 [strBytes "ENDHDR"]) :=
  (pam_header_layout
    { format := NetpbmFormat.PAM, encoding := EncodingType.Raw,
      width := 3, height := 2, bit_depth := 2048, channels := 4 }
    [strBytes "RGBA64"] rfl (by decide)).1

theorem lor_eq_add_of_dvd {t a c : Nat} (ha : 2 ^ t ∣ a) (hc : c < 2 ^ t) :
    a ||| c = a + c := by
  obtain ⟨m, rfl⟩ := ha
  exact (Nat.mul_add_lt_is_or hc m).symm

theorem packFold_eq (bits : List Nat) :
    ∀ (k a : Nat), (∀ b ∈ bits, b ≤ 1) → k + bits.length ≤ 8 → 2 ^ (8 - k) ∣ a →
      (List.enumFrom k bits).foldl (fun a p => a ||| ((p.2 <<< (7 - p.1)) % 256)) a =
        a + ((List.enumFrom k bits).map (fun p => p.2 * 2 ^ (7 - p.1))).sum := by
  induction bits with
  | nil => intro k a _ _ _; simp [List.enumFrom]
  | cons b bs ih =>
    intro k a hb hlen hdvd
    have hk : k ≤ 7 := by simp only [List.length_cons] at hlen; omega
    have hb1 : b ≤ 1 := hb b (List.mem_cons_self b bs)
    have hpow : (2 : Nat) ^ (7 - k) < 2 ^ (8 - k) :=
      Nat.pow_lt_pow_right (by omega) (by omega)
    have hlt : b * 2 ^ (7 - k) < 2 ^ (8 - k) := by
      calc b * 2 ^ (7 - k) ≤ 1 * 2 ^ (7 - k) := Nat.mul_le_mul_right _ hb1
        _ = 2 ^ (7 - k) := one_mul _
        _ < 2 ^ (8 - k) := hpow
    have h256 : (2 : Nat) ^ (8 - k) ≤ 256 := by
      calc (2 : Nat) ^ (8 - k) ≤ 2 ^ 8 := Nat.pow_le_pow_right (by omega) (by omega)
        _ = 256 := by norm_num
    have hmod : (b <<< (7 - k)) % 256 = b * 2 ^ (7 - k) := by
      rw [Nat.shiftLeft_eq]
      exact Nat.mod_eq_of_lt (lt_of_lt_of_le hlt h256)
    have hor : a ||| b * 2 ^ (7 - k) = a + b * 2 ^ (7 - k) :=
      lor_eq_add_of_dvd hdvd hlt
    have hdvd' : 2 ^ (8 - (k + 1)) ∣ a + b * 2 ^ (7 - k) := by
      have h1 : (8 : Nat) - (k + 1) = 7 - k := by omega
      rw [h1]
      refine Nat.dvd_add ?_ (Dvd.dvd.mul_left dvd_rfl b)
      exact dvd_trans (Nat.pow_dvd_pow 2 (by omega)) hdvd
    simp only [List.enumFrom, List.foldl_cons, List.map_cons, List.sum_cons]
    rw [hmod, hor]
    rw [ih (k + 1) (a + b * 2 ^ (7 - k)) (fun x hx => hb x (List.mem_cons_of_mem _ hx))
      (by simp only [List.length_cons] at hlen; omega) hdvd']
    omega

theorem packByte_eq_msbPackSpec (chunk : List Nat) (hb : ∀ b ∈ chunk, b ≤ 1)
    (hlen : chunk.length ≤ 8) : packByte chunk = msbPackSpec chunk := by
  have h := packFold_eq chunk 0 0 hb (by omega) (dvd_zero _)
  simpa [packByte, msbPackSpec, List.enum] using h

theorem chunkListAux_length {α : Type} (n : Nat) :
    ∀ (fuel : Nat) (l : List α), l.length ≤ fuel →
      (chunkListAux n fuel l).length = (l.length + n) / (n + 1) := by
  intro fuel
  induction fuel with
  | zero =>
    intro l hl
    have hnil : l = [] := List.eq_nil_of_length_eq_zero (by omega)
    subst hnil
    simp only [chunkListAux, List.length_nil, Nat.zero_add]
    rw [Nat.div_eq_of_lt (show n < n + 1 by omega)]
  | succ f ih =>
    intro l hl
    match l with
    | [] =>
      simp only [chunkListAux, List.length_nil, Nat.zero_add]
      rw [Nat.div_eq_of_lt (show n < n + 1 by omega)]
    | x :: xs =>
      simp only [List.length_cons] at hl
      simp only [chunkListAux, List.length_cons]
      rw [ih (xs.drop n) (by simp only [List.length_drop]; omega)]
      simp only [List.length_drop]
      rcases le_or_lt n xs.length with h1 | h1
      · rw [Nat.sub_add_cancel h1,
          show xs.length + 1 + n = xs.length + (n + 1) by omega,
          Nat.add_div_right _ (by omega)]
      · rw [show xs.length - n = 0 by omega,
          show xs.length + 1 + n = xs.length + (n + 1) by omega,
          Nat.add_div_right _ (by omega),
          Nat.div_eq_of_lt (by omega), Nat.div_eq_of_lt (by omega)]

theorem chunkListAux_getD {α : Type} (n : Nat) :
    ∀ (fuel : Nat) (l : List α) (i : Nat), l.length ≤ fuel →
      i < (chunkListAux n fuel l).length →
      (chunkListAux n fuel l).getD i [] = (l.drop ((n + 1) * i)).take (n + 1) := by
  intro fuel
  induction fuel with
  | zero =>
    intro l i hl hi
    have hnil : l = [] := List.eq_nil_of_length_eq_zero (by omega)
    subst hnil
    simp [chunkListAux] at hi
  | succ f ih =>
    intro l i hl hi
    match l with
    | [] => simp [chunkListAux] at hi
    | x :: xs =>
      simp only [List.length_cons] at hl
      simp only [chunkListAux] at hi ⊢
      match i with
      | 0 =>
        simp only [List.getD_cons_zero, Nat.mul_zero, List.drop_zero]
        rw [List.take_succ_cons]
      | i + 1 =>
        simp only [List.getD_cons_succ]
        rw [ih (xs.drop n) i (by simp only [List.length_drop]; omega)
          (by simpa using hi)]
        rw [List.drop_drop]
        rw [show (n + 1) * (i + 1) = ((n + 1) * i + n) + 1 by ring,
          List.drop_succ_cons, Nat.add_comm ((n + 1) * i) n]

theorem getD_map_lt {α β : Type} (f : α → β) (d : β) (d0 : α) :
    ∀ (l : List α) (i : Nat), i < l.length → (l.map f).getD i d = f (l.getD i d0) := by
  intro l
  induction l with
  | nil => intro i hi; simp at hi
  | cons x xs ih =>
    intro i hi
    match i with
    | 0 => simp
    | i + 1 =>
      simp only [List.map_cons, List.getD_cons_succ]
      exact ih i (by simpa using hi)

/-- Claim C2 (amended): the PBM raw raster packs the flat sample sequence
8 samples per byte, most-significant bit first, without regard to row
boundaries: the raster has ceil(width*height/8) bytes in total (not
ceil(width/8) per row), and byte i is the MSB-first packing of the
flat-sample window [8i, 8i+8), so zero padding occurs only in the final
byte of the whole raster. -/
theorem pbm_raw_flat_packing (width height : Nat) (samples : List Nat)
    (hlen : samples.length = width * height) (hbit : ∀ s ∈ samples, s ≤ 1) :
    (pbm_packed_raster samples).length = (width * height + 7) / 8 ∧
    ∀ i, i < (pbm_packed_raster samples).length →
      (pbm_packed_raster samples).getD i 0 =
        msbPackSpec ((samples.drop (8 * i)).take 8) := by
  have hchunkLen : (chunkList 7 samples).length = (samples.length + 7) / 8 :=
    chunkListAux_length 7 samples.length samples le_rfl
  constructor
  · simp only [pbm_packed_raster, chunkList, List.length_map]
    rw [chunkListAux_length 7 samples.length samples le_rfl, hlen]
  · intro i hi
    have hi' : i < (chunkList 7 samples).length := by
      simpa only [pbm_packed_raster, List.length_map] using hi
    have hchunk : (chunkList 7 samples).getD i [] = (samples.drop (8 * i)).take 8 := by
      have h := chunkListAux_getD 7 samples.length samples i le_rfl hi'
      simpa only [show (7 + 1) * i = 8 * i by ring] using h
    rw [pbm_packed_raster, getD_map_lt packByte 0 [] (chunkList 7 samples) i hi', hchunk]
    apply packByte_eq_msbPackSpec
    · intro b hbmem
      exact hbit b (List.drop_subset _ _ (List.take_subset _ _ hbmem))
    · simp only [List.length_take]
      omega

theorem pbm_raw_flat_packing_witness :
    (pbm_packed_raster [1, 0, 1, 0, 1, 0, 1, 0, 1, 0, 1, 0]).length = (4 * 3 + 7) / 8 :=
  (pbm_raw_flat_packing 4 3 [1, 0, 1, 0, 1, 0, 1, 0, 1, 0, 1, 0]
    (by decide) (by decide)).1

theorem validate_sample_size_mod32_witness :
    Info.validate_sample_size
        { format := NetpbmFormat.PAM, encoding := EncodingType.Raw,
          width := 65536, height := 65536, bit_depth := 255, channels := 1 } 0 =
      Except.ok () :=
  (validate_sample_size_mod32.1
    { format := NetpbmFormat.PAM, encoding := EncodingType.Raw,
      width := 65536, height := 65536, bit_depth := 255, channels := 1 } 0).mpr
    (by decide)
